import Mathlib

/-!
Shallow embedding of the case-management core of the `adhi_API` backend:
the Case aggregate (create / update / delete), the role-scoped access
filters for listing cases and events, and the derived hearing-event
synchronizer implemented as model hooks.

Sources embedded here:
* `src/models/case.model.js` — Case schema field constraints, the
  `post('save')` and `post('findOneAndUpdate')` hearing-event hooks;
* `src/models/event.model.js` — Event schema validators, the `pre('save')`
  end-after-start check and the `post('save')` case back-synchronization;
* `src/unnamed/part_010` — the elaborated case controller (`createCase`,
  `updateCase`, `deleteCase` and friends);
* `src/controllers/case.controller.js` — `getCases` (role-based listing);
* `src/controllers/event.controller.js` — `getEvents`.

Modelling conventions:
* MongoDB ObjectIds are `Nat`; timestamps are `Int` milliseconds.
* A JavaScript value that may fail to be an array is a `JsArr`; string
  fields use `""` for a missing/empty JS string (both are falsy in JS).
* The document store is three lists (cases, events, documents); an
  operation is a pure function `... → Store × Except AppErr α`, returning
  the unchanged store alongside the error on every failure path, which
  matches the controllers (all writes happen after the guard clauses).
* The Joi request validation and the Mongoose schema validation are
  modelled by boolean predicates covering the checks that gate the flows
  under study (required names, title bounds, array-typed fields, the
  Event start-date window).  The repository carries several conflicting
  Joi drafts; per the spec the most elaborated draft is followed.
* Mongoose strict mode silently drops subdocument paths absent from the
  schema on persist.  The one sub-schema in play that lacks paths the
  controllers write is `clients[]` (only name / email / contact /
  address are declared), modelled by `stripClient` at each write of the
  `clients` array; reading a dropped key in JS yields `undefined`
  (falsy), modelled as `none` / `false`.
* Fire-and-forget notification dispatch has no effect on the store and is
  not modelled.
-/

namespace Adhi

/-- User role tag, from the User model / auth middleware. -/
inductive Role
  | client
  | lawyer
  | admin
deriving DecidableEq, Repr

abbrev UserId := Nat

/-- The authenticated `req.user` the auth middleware injects. -/
structure ReqUser where
  id : UserId
  role : Role
  name : String
  email : String
deriving DecidableEq, Repr

/-- A party entry (`parties.petitioner[]` / `parties.respondent[]`).
`ptype` embeds the JS `type` field; missing strings are `""`.
Petitioner entries have no `opposingCounsel` key; `""` stands for that. -/
structure Party where
  name : String
  ptype : String
  role : String
  email : String
  contact : String
  address : String
  opposingCounsel : String
deriving DecidableEq, Repr

/-- A `lawyers[]` entry of the Case schema. -/
structure LawyerEntry where
  user : Option UserId
  name : String
  email : String
  role : String
  position : String
  isPrimary : Bool
  level : String
  chairPosition : String
  addedBy : Option UserId
  addedAt : Option Int
deriving DecidableEq, Repr

/-- A `clients[]` entry as the controllers build it. -/
structure ClientEntry where
  user : Option UserId
  name : String
  email : String
  contact : String
  address : String
  isPrimary : Bool
  addedBy : Option UserId
  addedAt : Option Int
deriving DecidableEq, Repr

/-- A JS value expected to be an array: `arr` when `Array.isArray` holds,
`missing` for `undefined`, `notArray` for null / object / primitive. -/
inductive JsArr (α : Type)
  | missing
  | arr (xs : List α)
  | notArray
deriving DecidableEq, Repr

/-- `Array.isArray(v) ? v : []` — the defensive coercion used throughout
the case controller. -/
def JsArr.coerce : JsArr α → List α
  | .arr xs => xs
  | _ => []

/-- A persisted Case document.  `petitioner` / `respondent` keep the
`JsArr` shape so that the known legacy corruption (a non-array value in
the store) is representable. -/
structure CaseDoc where
  id : Nat
  title : String
  caseNumber : String
  creator : Option UserId
  lawyer : Option UserId
  client : Option UserId
  lawyers : List LawyerEntry
  clients : List ClientEntry
  petitioner : JsArr Party
  respondent : JsArr Party
  nextHearingDate : Option Int
  isUrgent : Bool
  court : String
  events : List Nat
  documents : List Nat
deriving DecidableEq, Repr

/-- A persisted Event document (`src/models/event.model.js`).
`stop` embeds the JS `end` field; `etype` the JS `type` field. -/
structure EventDoc where
  id : Nat
  title : String
  description : String
  start : Int
  stop : Int
  etype : String
  caseRef : Option Nat
  caseTitle : String
  caseNumber : String
  location : String
  createdBy : Option UserId
  status : String
  priority : String
deriving DecidableEq, Repr

/-- A Document record — only the fields the deletion cascade would use. -/
structure DocumentDoc where
  id : Nat
  name : String
  caseRef : Option Nat
deriving DecidableEq, Repr

/-- The document store. -/
structure Store where
  cases : List CaseDoc
  events : List EventDoc
  documents : List DocumentDoc
deriving DecidableEq, Repr

/-- The error taxonomy the controllers signal through `AppError`. -/
inductive AppErr
  | badRequest
  | forbidden
  | notFound
  | conflict
  | internal
deriving DecidableEq, Repr

instance {ε α : Type} [DecidableEq ε] [DecidableEq α] :
    DecidableEq (Except ε α) := fun x y =>
  match x, y with
  | .ok a, .ok b =>
    if h : a = b then .isTrue (by rw [h]) else .isFalse (by simp [h])
  | .error a, .error b =>
    if h : a = b then .isTrue (by rw [h]) else .isFalse (by simp [h])
  | .ok _, .error _ => .isFalse (by simp)
  | .error _, .ok _ => .isFalse (by simp)

/-- HTTP status of each error, as passed to `new AppError(msg, code)`. -/
def AppErr.code : AppErr → Nat
  | .badRequest => 400
  | .forbidden => 403
  | .notFound => 404
  | .conflict => 409
  | .internal => 500

/-! ## Event model (`src/models/event.model.js`) -/

/-- One hour in milliseconds, the window of the Event `start` validator
and the synthesized hearing duration. -/
def hourMs : Int := 60 * 60 * 1000

/-- The EventSchema field validators that run on `save`:
`title` required (≤ 200 chars), `description` bounded (≤ 1000 chars),
the `start` near-future window (`v > Date.now() - 60*60*1000`),
`location` required for hearings and court visits, `case` required
unless the type is `client_meeting`, and `createdBy` required. -/
def eventValid (now : Int) (e : EventDoc) : Bool :=
  e.title ≠ "" && e.title.length ≤ 200 &&
  e.description.length ≤ 1000 &&
  decide (e.start > now - hourMs) &&
  (if e.etype = "hearing" || e.etype = "court_visit" then e.location ≠ "" else true) &&
  (if e.etype = "client_meeting" then true else e.caseRef.isSome) &&
  e.createdBy.isSome

/-- `Case.updateOne({_id: cid}, {$set: {nextHearingDate: d}})`. -/
def setCaseNextHearing (s : Store) (cid : Nat) (d : Int) : Store :=
  { s with cases := s.cases.map fun c =>
      if c.id = cid then { c with nextHearingDate := some d } else c }

/-- `eventDoc.save()`: schema validation, the `pre('save')` end-after-start
check, insertion, then the `post('save')` hook that mirrors a hearing
event's `start` into the owning case's `nextHearingDate`. -/
def saveEvent (now : Int) (s : Store) (e : EventDoc) : Except AppErr Store :=
  if ¬ eventValid now e then .error .badRequest
  else if e.stop ≤ e.start then .error .internal
  else if e.etype = "hearing" then
    match e.caseRef with
    | some cid =>
      .ok (setCaseNextHearing { s with events := s.events ++ [e] } cid e.start)
    | none => .ok { s with events := s.events ++ [e] }
  else .ok { s with events := s.events ++ [e] }

/-! ## Derived hearing-event synchronizer
(`CaseSchema.post('findOneAndUpdate')` in `src/models/case.model.js`) -/

/-- The query of the hook's `Event.findOne`: a scheduled hearing event of
the given case. -/
def isScheduledHearing (cid : Nat) (e : EventDoc) : Bool :=
  e.caseRef = some cid && e.etype = "hearing" && e.status = "scheduled"

/-- Largest event id in the store (`0` when there are none). -/
def maxEventId (s : Store) : Nat :=
  s.events.foldr (fun e m => max e.id m) 0

/-- A fresh `_id` for an event synthesized by the hook. -/
def freshEventId (s : Store) : Nat := maxEventId s + 1

/-- The `new Event({...})` the synchronizer builds from the updated case
document and the new hearing date. -/
def mkHearingEvent (doc : CaseDoc) (d : Int) (eid : Nat) : EventDoc :=
  { id := eid
    title := "Hearing - " ++ doc.title
    description := "Court hearing for case: " ++ doc.caseNumber
    start := d
    stop := d + hourMs
    etype := "hearing"
    caseRef := some doc.id
    caseTitle := doc.title
    caseNumber := doc.caseNumber
    location := if doc.court = "" then "Court" else doc.court
    createdBy := (doc.creator.or doc.lawyer).or doc.client
    status := "scheduled"
    priority := if doc.isUrgent then "high" else "medium" }

/-- The in-place `Event.findByIdAndUpdate` `$set` of the synchronizer:
`start`, `end`, `title`, `description` recomputed from the updated case
and the new hearing date. -/
def hearingPatch (doc : CaseDoc) (d : Int) (e : EventDoc) : EventDoc :=
  { e with
    start := d
    stop := d + hourMs
    title := "Hearing - " ++ doc.title
    description := "Court hearing for case: " ++ doc.caseNumber }

/-- `CaseSchema.post('findOneAndUpdate')`: fires when the update payload
carries a (truthy) `nextHearingDate`.  An existing scheduled hearing event
is updated in place through `Event.findByIdAndUpdate` (no validators, no
save hooks); otherwise a new hearing event is saved and its id pushed onto
the case's `events[]`.  A failed save is caught and only logged, leaving
the store of the parent update intact. -/
def caseUpdateHook (now : Int) (nhd : Option Int) (doc : CaseDoc) (s : Store) :
    Store :=
  match nhd with
  | none => s
  | some d =>
    match s.events.find? (isScheduledHearing doc.id) with
    | some ev =>
      { s with events := s.events.map fun e =>
          if e.id = ev.id then hearingPatch doc d e else e }
    | none =>
      match saveEvent now s (mkHearingEvent doc d (freshEventId s)) with
      | .ok s1 =>
        { s1 with cases := s1.cases.map fun c =>
            if c.id = doc.id then
              { c with events := c.events ++ [(mkHearingEvent doc d (freshEventId s)).id] }
            else c }
      | .error _ => s

/-! ## Case creation (`exports.createCase` in `src/unnamed/part_010`) -/

/-- The shape of `req.body.parties`: absent, falsy (null/false), a truthy
non-object primitive, or an object with `petitioner` / `respondent`. -/
inductive PartiesField
  | missing
  | nullish
  | prim
  | obj (pet resp : JsArr Party)
deriving DecidableEq, Repr

/-- A create request body, restricted to the fields the claims exercise.
`lawyer` / `client` reach `caseData` through the `...otherFields` spread. -/
structure CreateBody where
  title : String
  caseNumber : String
  parties : PartiesField
  lawyers : JsArr LawyerEntry
  clients : JsArr ClientEntry
  lawyer : Option UserId
  client : Option UserId
  nextHearingDate : Option Int
  isUrgent : Bool
  court : String
deriving DecidableEq, Repr

/-- `createCaseSchema.validate(req.body)` (Joi): required non-empty
`title` (≤ 100 chars) and `caseNumber`; `parties` must be absent or an
object whose sides are absent or arrays of named entries; `lawyers` /
`clients` must be absent or arrays of named entries. -/
def createValidate (b : CreateBody) : Bool :=
  b.title ≠ "" && b.title.length ≤ 100 && b.caseNumber ≠ "" &&
  (match b.parties with
   | .missing => true
   | .nullish => false
   | .prim => false
   | .obj pet resp =>
     (match pet with
      | .missing => true
      | .arr xs => xs.all (·.name ≠ "")
      | .notArray => false) &&
     (match resp with
      | .missing => true
      | .arr xs => xs.all (·.name ≠ "")
      | .notArray => false)) &&
  (match b.lawyers with
   | .missing => true
   | .arr xs => xs.all (·.name ≠ "")
   | .notArray => false) &&
  (match b.clients with
   | .missing => true
   | .arr xs => xs.all (·.name ≠ "")
   | .notArray => false)

/-- The Mongoose CaseSchema validation run by `Case.create`: required
`title` (≤ 100), required `caseNumber`, required names on party entries,
required `name` and `addedBy` on `lawyers[]` entries, required `name` on
`clients[]` entries. -/
def caseDocValid (cd : CaseDoc) : Bool :=
  cd.title ≠ "" && cd.title.length ≤ 100 && cd.caseNumber ≠ "" &&
  cd.petitioner.coerce.all (·.name ≠ "") &&
  cd.respondent.coerce.all (·.name ≠ "") &&
  cd.lawyers.all (fun l => l.name ≠ "" && l.addedBy.isSome) &&
  cd.clients.all (·.name ≠ "")

/-- The `lawyers[]` entry `createCase` synthesizes for a lawyer creator
when no `lawyers` array was supplied. -/
def selfLawyerEntry (u : ReqUser) (now : Int) : LawyerEntry :=
  { user := some u.id
    name := u.name
    email := u.email
    role := "lead"
    position := "first_chair"
    isPrimary := true
    level := "Senior"
    chairPosition := "first_chair"
    addedBy := some u.id
    addedAt := some now }

/-- The `clients[]` entry `createCase` synthesizes for a client creator
when no `clients` array was supplied. -/
def selfClientEntry (u : ReqUser) (now : Int) : ClientEntry :=
  { user := some u.id
    name := u.name
    email := u.email
    contact := ""
    address := ""
    isPrimary := true
    addedBy := some u.id
    addedAt := some now }

/-- `caseData.lawyers[0].isPrimary = true` (and the client analogue). -/
def setHeadPrimaryL : List LawyerEntry → List LawyerEntry
  | [] => []
  | h :: t => { h with isPrimary := true } :: t

def setHeadPrimaryC : List ClientEntry → List ClientEntry
  | [] => []
  | h :: t => { h with isPrimary := true } :: t

/-- Largest case id in the store (`0` when there are none). -/
def maxCaseId (s : Store) : Nat :=
  s.cases.foldr (fun c m => max c.id m) 0

def freshCaseId (s : Store) : Nat := maxCaseId s + 1

/-- The `lawyers[]` array after the role-specific branch of `createCase`
(part_010 lines 170–198): a lawyer creator with no supplied array gets a
synthesized self entry; with a supplied array, the first entry is
promoted when none is flagged primary. -/
def roleLawyers (u : ReqUser) (now : Int) (b : CreateBody) :
    List LawyerEntry :=
  match u.role, b.lawyers.coerce with
  | .lawyer, [] => [selfLawyerEntry u now]
  | .lawyer, h :: t =>
    match (h :: t).find? (·.isPrimary) with
    | some _ => h :: t
    | none => { h with isPrimary := true } :: t
  | _, l => l

/-- The singular `lawyer` field after the role-specific branch. -/
def roleLawyer (u : ReqUser) (b : CreateBody) : Option UserId :=
  match u.role, b.lawyers.coerce with
  | .lawyer, [] => some u.id
  | .lawyer, h :: t =>
    match (h :: t).find? (·.isPrimary) with
    | some p => p.user
    | none => h.user
  | _, _ => b.lawyer

/-- The `clients[]` array after the role-specific branch of `createCase`
(part_010 lines 199–224). -/
def roleClients (u : ReqUser) (now : Int) (b : CreateBody) :
    List ClientEntry :=
  match u.role, b.clients.coerce with
  | .client, [] => [selfClientEntry u now]
  | .client, h :: t =>
    match (h :: t).find? (·.isPrimary) with
    | some _ => h :: t
    | none => { h with isPrimary := true } :: t
  | _, l => l

/-- The singular `client` field after the role-specific branch. -/
def roleClient (u : ReqUser) (b : CreateBody) : Option UserId :=
  match u.role, b.clients.coerce with
  | .client, [] => some u.id
  | .client, h :: t =>
    match (h :: t).find? (·.isPrimary) with
    | some p => p.user
    | none => h.user
  | _, _ => b.client

/-- "Ensure at least one primary lawyer is set if there are lawyers"
(part_010 lines 226–231; runs for every creator role). -/
def ensurePrimaryL (l : List LawyerEntry) : List LawyerEntry :=
  if l ≠ [] && !(l.any (·.isPrimary)) then setHeadPrimaryL l else l

/-- The client analogue (part_010 lines 233–238). -/
def ensurePrimaryC (l : List ClientEntry) : List ClientEntry :=
  if l ≠ [] && !(l.any (·.isPrimary)) then setHeadPrimaryC l else l

/-- The role-specific primary assignment of `createCase` (part_010 lines
167–238): the singular `lawyer` / `client` and the processed arrays.
Returns `(lawyer, lawyers, client, clients)`. -/
def assignPrimaries (u : ReqUser) (now : Int) (b : CreateBody) :
    Option UserId × List LawyerEntry × Option UserId × List ClientEntry :=
  (roleLawyer u b, ensurePrimaryL (roleLawyers u now b),
   roleClient u b, ensurePrimaryC (roleClients u now b))

/-- `parties.petitioner` after the create normalization
(`Array.isArray(parties.petitioner) ? parties.petitioner : []`, with the
destructuring default `parties = {}` for a missing key). -/
def createPetitioner (b : CreateBody) : List Party :=
  match b.parties with
  | .obj p _ => p.coerce
  | _ => []

/-- `parties.respondent` after the create normalization. -/
def createRespondent (b : CreateBody) : List Party :=
  match b.parties with
  | .obj _ r => r.coerce
  | _ => []

/-- Mongoose strict-mode stripping of a `clients[]` entry on persist:
the Case schema's clients sub-schema (`src/models/case.model.js` lines
160–168) declares only `name` / `email` / `contact` / `address`, so the
controller-written `user` / `isPrimary` / `addedBy` / `addedAt` keys are
silently dropped.  Reading a dropped key in JS yields `undefined`
(falsy), modelled as `none` / `false`. -/
def stripClient (x : ClientEntry) : ClientEntry :=
  { user := none
    name := x.name
    email := x.email
    contact := x.contact
    address := x.address
    isPrimary := false
    addedBy := none
    addedAt := none }

/-- The case document `Case.create` persists.  The controller-computed
singular `lawyer` / `client` fields and the `lawyers[]` entries are
schema paths and persist verbatim; the `clients[]` entries are stripped
to the declared sub-schema paths. -/
def createCaseDoc (now : Int) (u : ReqUser) (b : CreateBody) (s : Store) :
    CaseDoc :=
  let a := assignPrimaries u now b
  { id := freshCaseId s
    title := b.title
    caseNumber := b.caseNumber
    creator := some u.id
    lawyer := a.1
    client := a.2.2.1
    lawyers := a.2.1
    clients := a.2.2.2.map stripClient
    petitioner := .arr (createPetitioner b)
    respondent := .arr (createRespondent b)
    nextHearingDate := b.nextHearingDate
    isUrgent := b.isUrgent
    court := b.court
    events := []
    documents := [] }

/-- `exports.createCase` (part_010): Joi validation; array-normalization
of `parties` / `lawyers` / `clients`; role-specific primary assignment;
the duplicate-`caseNumber` check (`Conflict` before insertion); then
`Case.create` (Mongoose validation).  The `post('save')` hearing-event
hook guards on `this.isNew`, which is already false in a post-save hook,
so it never fires and is not modelled.  Notification fan-out does not
touch the store. -/
def createCase (now : Int) (u : ReqUser) (b : CreateBody) (s : Store) :
    Store × Except AppErr CaseDoc :=
  if ¬ createValidate b then (s, .error .badRequest)
  else if s.cases.any (·.caseNumber = b.caseNumber) then (s, .error .conflict)
  else if ¬ caseDocValid (createCaseDoc now u b s) then (s, .error .badRequest)
  else ({ s with cases := s.cases ++ [createCaseDoc now u b s] },
        .ok (createCaseDoc now u b s))

/-! ## Case update (`exports.updateCase` in `src/unnamed/part_010`) -/

/-- An update request body, restricted to the fields the claims exercise.
`nextHearingDate` is doubly optional: the outer layer is key presence in
the payload, the inner layer is a `null` value (Joi allows it). -/
structure UpdateBody where
  title : Option String
  nextHearingDate : Option (Option Int)
  parties : PartiesField
  lawyers : Option (JsArr LawyerEntry)
  clients : Option (JsArr ClientEntry)
deriving DecidableEq, Repr

/-- `if (p.type) ... else default` on a JS string field. -/
def strOr (v dflt : String) : String := if v = "" then dflt else v

/-- The petitioner patch of `updateCase` (part_010 lines 348–355): every
field defaulted; the mapped object carries no `opposingCounsel` key. -/
def fillPetitioner (p : Party) : Party :=
  { name := p.name
    ptype := strOr p.ptype "Individual"
    role := strOr p.role "Petitioner"
    email := p.email
    contact := p.contact
    address := p.address
    opposingCounsel := "" }

/-- The respondent patch of `updateCase` (part_010 lines 356–364). -/
def fillRespondent (p : Party) : Party :=
  { name := p.name
    ptype := strOr p.ptype "Individual"
    role := strOr p.role "Respondent"
    email := p.email
    contact := p.contact
    address := p.address
    opposingCounsel := p.opposingCounsel }

/-- The in-place normalization of `req.body.parties` that `updateCase`
performs before validating (part_010 lines 344–365).  A truthy
non-object `parties` value makes the patch throw (`.map` of `undefined`),
which the controller's catch converts to a generic error. -/
def patchBodyParties (b : UpdateBody) : Except AppErr UpdateBody :=
  match b.parties with
  | .prim => .error .internal
  | .obj pet resp =>
    .ok { b with parties := .obj (.arr (pet.coerce.map fillPetitioner))
                                 (.arr (resp.coerce.map fillRespondent)) }
  | _ => .ok b

/-- `updateCaseSchema.validate(req.body)` (Joi) on the patched body,
restricted to the checks relevant here: the optional `title` bound and
required names on (already patched) party entries. -/
def joiUpdateValid (b : UpdateBody) : Bool :=
  (match b.title with
   | none => true
   | some t => t ≠ "" && t.length ≤ 100) &&
  (match b.parties with
   | .obj pet resp =>
     pet.coerce.all (·.name ≠ "") && resp.coerce.all (·.name ≠ "")
   | _ => true)

/-- The authorization guard of `updateCase`: assigned lawyer or client,
or self-assignment when the matching singular slot is empty. -/
def authorizedUpdate (u : ReqUser) (c : CaseDoc) : Bool :=
  c.lawyer = some u.id || c.client = some u.id ||
  (u.role = Role.lawyer && c.lawyer = none) ||
  (u.role = Role.client && c.client = none)

/-- The `$set` document `updateCase` hands to `Case.findByIdAndUpdate`.
`parties` is always present; `lawyer` / `clients` etc. only when the
body supplied them (`undefined` values are stripped by Mongoose). -/
structure UpdatePayload where
  title : Option String
  nextHearingDate : Option (Option Int)
  petitioner : List Party
  respondent : List Party
  lawyers : Option (List LawyerEntry)
  lawyer : Option UserId
  clients : Option (List ClientEntry)
  client : Option UserId
deriving DecidableEq, Repr

/-- The `updatedLawyers` array of `updateCase` (part_010 lines 391–401):
coerce to an array, and when non-empty promote the first entry if no
entry is flagged primary. -/
def updLawyersArr (v : JsArr LawyerEntry) : List LawyerEntry :=
  match v.coerce with
  | [] => []
  | h :: t =>
    if (h :: t).any (·.isPrimary) then h :: t
    else { h with isPrimary := true } :: t

/-- `updatePayload.lawyer = (find isPrimary || updatedLawyers[0]).user`
(set only when the processed array is non-empty; a JS `undefined` user is
stripped by Mongoose, modelled as `none`). -/
def updLawyerField (v : JsArr LawyerEntry) : Option UserId :=
  match v.coerce with
  | [] => none
  | h :: _ =>
    (((updLawyersArr v).find? (·.isPrimary)).getD
      ((updLawyersArr v).headD h)).user

/-- The client analogue (part_010 lines 403–415). -/
def updClientsArr (v : JsArr ClientEntry) : List ClientEntry :=
  match v.coerce with
  | [] => []
  | h :: t =>
    if (h :: t).any (·.isPrimary) then h :: t
    else { h with isPrimary := true } :: t

def updClientField (v : JsArr ClientEntry) : Option UserId :=
  match v.coerce with
  | [] => none
  | h :: _ =>
    (((updClientsArr v).find? (·.isPrimary)).getD
      ((updClientsArr v).headD h)).user

/-- The robust `parties` handling (part_010 lines 427–442): take the
(patched) body value or fall back to the existing — possibly corrupt —
persisted value, coercing either side to an array. -/
def updPetitioner (b : UpdateBody) (c : CaseDoc) : List Party :=
  match b.parties with
  | .obj p _ => p.coerce
  | _ => c.petitioner.coerce

def updRespondent (b : UpdateBody) (c : CaseDoc) : List Party :=
  match b.parties with
  | .obj _ r => r.coerce
  | _ => c.respondent.coerce

/-- Builds the update payload from the (patched) body and the loaded case
(part_010 lines 384–442): primary recomputation for supplied `lawyers` /
`clients`, and the robust `parties` handling. -/
def buildUpdatePayload (b : UpdateBody) (c : CaseDoc) : UpdatePayload :=
  { title := b.title
    nextHearingDate := b.nextHearingDate
    petitioner := updPetitioner b c
    respondent := updRespondent b c
    lawyers := b.lawyers.map updLawyersArr
    lawyer := b.lawyers.bind updLawyerField
    clients := b.clients.map updClientsArr
    client := b.clients.bind updClientField }

/-- The Mongoose validation run by `findByIdAndUpdate` with
`runValidators: true` over the paths being set. -/
def updatePayloadValid (p : UpdatePayload) : Bool :=
  (match p.title with
   | none => true
   | some t => t ≠ "" && t.length ≤ 100) &&
  p.petitioner.all (·.name ≠ "") &&
  p.respondent.all (·.name ≠ "") &&
  (match p.lawyers with
   | none => true
   | some xs => xs.all fun l => l.name ≠ "" && l.addedBy.isSome) &&
  (match p.clients with
   | none => true
   | some xs => xs.all (·.name ≠ ""))

/-- Applies the `$set` payload to the loaded case document.  A written
`clients` array is stripped to the declared sub-schema paths
(`stripClient`), as Mongoose strict mode does on persist. -/
def applyUpdate (c : CaseDoc) (p : UpdatePayload) : CaseDoc :=
  { c with
    title := p.title.getD c.title
    nextHearingDate :=
      match p.nextHearingDate with
      | some v => v
      | none => c.nextHearingDate
    petitioner := .arr p.petitioner
    respondent := .arr p.respondent
    lawyers := p.lawyers.getD c.lawyers
    lawyer := match p.lawyer with
      | some x => some x
      | none => c.lawyer
    clients := match p.clients with
      | some xs => xs.map stripClient
      | none => c.clients
    client := match p.client with
      | some x => some x
      | none => c.client }

/-- The hook trigger `this._update.nextHearingDate` (truthy check): a
date value present in the payload. -/
def hookDate (p : UpdatePayload) : Option Int :=
  match p.nextHearingDate with
  | some (some d) => some d
  | _ => none

/-- `exports.updateCase` (part_010): parties patch, Joi validation,
load, authorization, payload construction, the single
`findByIdAndUpdate` write (with validators), then the
`post('findOneAndUpdate')` hearing-event synchronizer. -/
def updateCase (now : Int) (u : ReqUser) (cid : Nat) (b0 : UpdateBody)
    (s : Store) : Store × Except AppErr CaseDoc :=
  match patchBodyParties b0 with
  | .error e => (s, .error e)
  | .ok b =>
    if ¬ joiUpdateValid b then (s, .error .badRequest)
    else
      match s.cases.find? (·.id = cid) with
      | none => (s, .error .notFound)
      | some c =>
        if authorizedUpdate u c then
          if ¬ updatePayloadValid (buildUpdatePayload b c) then
            (s, .error .badRequest)
          else
            (caseUpdateHook now (hookDate (buildUpdatePayload b c))
               (applyUpdate c (buildUpdatePayload b c))
               { s with cases := s.cases.map fun x =>
                   if x.id = cid then applyUpdate c (buildUpdatePayload b c)
                   else x },
             .ok (applyUpdate c (buildUpdatePayload b c)))
        else (s, .error .forbidden)

/-! ## Listing and deletion -/

/-- The role-based list filter of `exports.getCases` in
`src/controllers/case.controller.js` (lines 13–22): `client` restricts to
`{client: userId}`, `lawyer` to `{lawyer: userId}`, any other role is
unrestricted.  The optional search / status / type / district / date
query refinements and pagination are orthogonal to the access rule and
are modelled as absent (the source adds nothing else to the filter
then). -/
def getCasesFilter (u : ReqUser) (c : CaseDoc) : Bool :=
  match u.role with
  | .client => c.client = some u.id
  | .lawyer => c.lawyer = some u.id
  | .admin => true

/-- `exports.getCases`: the list query with the role-based filter. -/
def getCases (u : ReqUser) (s : Store) : List CaseDoc :=
  s.cases.filter (getCasesFilter u)

/-- The case-membership query of `exports.getEvents` in
`src/controllers/event.controller.js`: for a client, cases where the user
is the singular `client` or appears in `clients[].user`; for a lawyer the
symmetric query; for any other role no case query is issued. -/
def userCaseIds (u : ReqUser) (s : Store) : List Nat :=
  match u.role with
  | .client =>
    (s.cases.filter fun c =>
      c.client = some u.id || c.clients.any (·.user = some u.id)).map (·.id)
  | .lawyer =>
    (s.cases.filter fun c =>
      c.lawyer = some u.id || c.lawyers.any (·.user = some u.id)).map (·.id)
  | .admin => []

/-- `exports.getEvents` (no search / type / caseId / date refinements):
the `case` filter is applied ONLY when `userCaseIds.length > 0`; with an
empty membership list the filter object stays empty and every event is
returned. -/
def getEvents (u : ReqUser) (s : Store) : List EventDoc :=
  let ids := userCaseIds u s
  if ids ≠ [] then
    s.events.filter fun e =>
      match e.caseRef with
      | some cid => cid ∈ ids
      | none => false
  else s.events

/-- `exports.deleteCase` (part_010 lines 467–501): load, authorize
(assigned lawyer or client), then `caseToDelete.deleteOne()` followed
immediately by `return`.  The `Document.deleteMany({case: caseId})` and
`Case.findByIdAndDelete` statements sit after that `return` and are
unreachable; the Case schema registers no `deleteOne` middleware, so
neither documents nor events are touched. -/
def deleteCase (u : ReqUser) (cid : Nat) (s : Store) :
    Store × Except AppErr Unit :=
  match s.cases.find? (·.id = cid) with
  | none => (s, .error .notFound)
  | some c =>
    if c.lawyer = some u.id || c.client = some u.id then
      ({ s with cases := s.cases.filter (·.id ≠ cid) }, .ok ())
    else (s, .error .forbidden)

/-- Exactly-one-primary predicate of the spec invariant, for clients. -/
def exactlyOnePrimaryC (l : List ClientEntry) : Prop :=
  (l.filter (·.isPrimary)).length = 1

/-- The hearing-type events of a case. -/
def hearingEventsFor (s : Store) (cid : Nat) : List EventDoc :=
  s.events.filter fun e => e.caseRef = some cid && e.etype = "hearing"

/-- An array-shaped persisted value. -/
def JsArr.isArr : JsArr α → Prop
  | .arr _ => True
  | _ => False

/-! ## Concrete fixtures for witnesses and counterexamples -/

/-- A minimal well-formed case document, to be refined per scenario. -/
def mkCase (id : Nat) : CaseDoc :=
  { id := id
    title := "State v Doe"
    caseNumber := "CN-1"
    creator := none
    lawyer := none
    client := none
    lawyers := []
    clients := []
    petitioner := .arr []
    respondent := .arr []
    nextHearingDate := none
    isUrgent := false
    court := ""
    events := []
    documents := [] }

/-- A minimal event document, to be refined per scenario. -/
def mkEvent (id : Nat) : EventDoc :=
  { id := id
    title := "Hearing - State v Doe"
    description := ""
    start := 0
    stop := hourMs
    etype := "hearing"
    caseRef := none
    caseTitle := ""
    caseNumber := ""
    location := "Court"
    createdBy := some 1
    status := "scheduled"
    priority := "medium" }

/-- A minimal clients-array entry, to be refined per scenario. -/
def mkClientEntry (uid : UserId) : ClientEntry :=
  { user := some uid
    name := "K"
    email := ""
    contact := ""
    address := ""
    isPrimary := false
    addedBy := some uid
    addedAt := none }

/-- A create body carrying only the required scalars. -/
def mkCreateBody (num : String) : CreateBody :=
  { title := "State v Doe"
    caseNumber := num
    parties := .missing
    lawyers := .missing
    clients := .missing
    lawyer := none
    client := none
    nextHearingDate := none
    isUrgent := false
    court := "" }

/-- An empty update body. -/
def mkUpdateBody : UpdateBody :=
  { title := none
    nextHearingDate := none
    parties := .missing
    lawyers := none
    clients := none }

/-- A lawyer-role requesting user. -/
def lawyerUser : ReqUser := ⟨5, .lawyer, "Lawyer", "l@example.com"⟩

def emptyStore : Store := ⟨[], [], []⟩

/-- The case produced by `lawyerUser` creating `mkCreateBody "CN-1"`. -/
def c5Doc : CaseDoc := createCaseDoc 0 lawyerUser (mkCreateBody "CN-1") emptyStore

def c5Store : Store := ⟨[c5Doc], [], []⟩

/-- C3, counterexample: the claim says a `client` user receives every
case in which they appear in `clients[].user`; but `getCases`
(src/controllers/case.controller.js lines 13–22) filters only on the
singular `client` field, so a case whose `clients[]` contains user 2
while `client` is user 1 is absent from user 2's list. -/
theorem getCases_clients_array_ignored :
    let u : ReqUser := ⟨2, .client, "K", "k@example.com"⟩
    let c : CaseDoc := { mkCase 1 with
      client := some 1
      lawyer := some 3
      clients := [mkClientEntry 2] }
    let s : Store := ⟨[c], [], []⟩
    c ∈ s.cases ∧ c.clients.any (·.user = some u.id) = true ∧
      c ∉ getCases u s := by
  refine ⟨List.mem_singleton.mpr rfl, by decide, ?_⟩
  decide

/-- C3 (amended): for the list query, a `client` receives exactly the
cases whose singular `client` field is them, a `lawyer` exactly those
whose singular `lawyer` field is them, and an `admin` all cases;
membership in `clients[].user` / `lawyers[].user` does not grant list
visibility. -/
theorem getCases_role_scope (u : ReqUser) (s : Store) (c : CaseDoc) :
    (u.role = Role.client → (c ∈ getCases u s ↔ c ∈ s.cases ∧ c.client = some u.id)) ∧
    (u.role = Role.lawyer → (c ∈ getCases u s ↔ c ∈ s.cases ∧ c.lawyer = some u.id)) ∧
    (u.role = Role.admin → (c ∈ getCases u s ↔ c ∈ s.cases)) := by
  refine ⟨fun h => ?_, fun h => ?_, fun h => ?_⟩ <;>
    simp [getCases, getCasesFilter, List.mem_filter, h]

/-- C3, witness for the amended theorem at a concrete input. -/
theorem getCases_role_scope_witness :
    let u : ReqUser := ⟨1, .client, "K", "k@example.com"⟩
    let c : CaseDoc := { mkCase 1 with client := some 1 }
    let s : Store := ⟨[c], [], []⟩
    c ∈ getCases u s := by
  intro u c s
  exact ((getCases_role_scope u s c).1 rfl).mpr ⟨List.mem_singleton.mpr rfl, rfl⟩

/-! ## C6 — deletion cascade -/

/-- C6: the claim says deleting a Case cascades to its Documents and
Events.  In `deleteCase` the controller returns immediately after
`caseToDelete.deleteOne()`; `Document.deleteMany({case: caseId})` is
unreachable dead code and events are never touched.  At this input the
authorized deletion succeeds, the case is gone, yet its document and its
event are still in the store. -/
theorem deleteCase_no_cascade :
    let u : ReqUser := ⟨5, .lawyer, "L", "l@example.com"⟩
    let c : CaseDoc := { mkCase 1 with
      lawyer := some 5
      documents := [20]
      events := [30] }
    let d : DocumentDoc := ⟨20, "writ.pdf", some 1⟩
    let e : EventDoc := { mkEvent 30 with caseRef := some 1 }
    let s : Store := ⟨[c], [e], [d]⟩
    (deleteCase u 1 s).2 = .ok () ∧
      (deleteCase u 1 s).1.cases = [] ∧
      (deleteCase u 1 s).1.documents = [d] ∧
      (deleteCase u 1 s).1.events = [e] := by
  dsimp only
  decide

/-! ## C7 — event list visibility -/

/-- C7: the claim says a client sees only events of cases visible to
them, a client on no cases seeing none.  In `getEvents` the case filter
is installed only when `userCaseIds.length > 0`; for a client who is a
member of no cases the filter object stays empty and every event in the
store is returned.  At this input user 99 belongs to no case yet
receives the hearing event of case 1 (whose client is user 1). -/
theorem getEvents_leaks_when_no_cases :
    let u : ReqUser := ⟨99, .client, "K", "k@example.com"⟩
    let c : CaseDoc := { mkCase 1 with client := some 1, lawyer := some 3 }
    let e : EventDoc := { mkEvent 30 with caseRef := some 1 }
    let s : Store := ⟨[c], [e], []⟩
    userCaseIds u s = [] ∧ getEvents u s = [e] := by
  dsimp only
  decide

/-! ## C5 — duplicate case numbers -/

/-- Shape of a successful `createCase`: the new document is appended, it
carries the requested `caseNumber` and freshly initialized relationship
arrays, and the other collections are untouched. -/
theorem createCase_ok_shape (now : Int) (u : ReqUser) (b : CreateBody)
    (s s1 : Store) (c1 : CaseDoc)
    (h : createCase now u b s = (s1, .ok c1)) :
    c1 = createCaseDoc now u b s ∧ caseDocValid c1 = true ∧
      s1.cases = s.cases ++ [c1] ∧ c1.caseNumber = b.caseNumber ∧
      c1.petitioner.isArr ∧ c1.respondent.isArr ∧
      s1.events = s.events ∧ s1.documents = s.documents := by
  unfold createCase at h
  split at h
  · simp at h
  · split at h
    · simp at h
    · split at h
      · simp at h
      · rename_i hvalid
        obtain ⟨hs, hc⟩ := Prod.mk.injEq .. ▸ h
        obtain rfl := Except.ok.inj hc
        subst hs
        exact ⟨rfl, not_not.mp hvalid, rfl, rfl, trivial, trivial, rfl, rfl⟩

/-- C5: once a creation with some `caseNumber` has succeeded, a second
creation with the same `caseNumber` (and a payload passing request
validation) fails with `Conflict` (HTTP 409) and leaves the store — in
particular the first case — untouched. -/
theorem createCase_duplicate_conflict (now now' : Int) (u u' : ReqUser)
    (b b' : CreateBody) (s s1 : Store) (c1 : CaseDoc)
    (h1 : createCase now u b s = (s1, .ok c1))
    (h2 : b'.caseNumber = b.caseNumber)
    (hv : createValidate b' = true) :
    createCase now' u' b' s1 = (s1, .error .conflict) ∧ c1 ∈ s1.cases := by
  obtain ⟨-, -, hcases, hnum, -, -, -, -⟩ := createCase_ok_shape now u b s s1 c1 h1
  have hdup : s1.cases.any (·.caseNumber = b'.caseNumber) = true := by
    rw [hcases, h2, ← hnum]
    simp
  constructor
  · unfold createCase
    rw [if_neg (by simp [hv]), if_pos hdup]
  · rw [hcases]; simp

/-- Shape of a successful `updateCase`: recovers the patched body, the
loaded case, the guards that passed, and the written document / store. -/
theorem updateCase_ok_shape (now : Int) (u : ReqUser) (cid : Nat)
    (b0 : UpdateBody) (s s' : Store) (c' : CaseDoc)
    (h : updateCase now u cid b0 s = (s', .ok c')) :
    ∃ b c, patchBodyParties b0 = .ok b ∧ joiUpdateValid b = true ∧
      s.cases.find? (·.id = cid) = some c ∧ authorizedUpdate u c = true ∧
      updatePayloadValid (buildUpdatePayload b c) = true ∧
      c' = applyUpdate c (buildUpdatePayload b c) ∧
      s' = caseUpdateHook now (hookDate (buildUpdatePayload b c)) c'
        { s with cases := s.cases.map fun x => if x.id = cid then c' else x } := by
  unfold updateCase at h
  split at h
  · simp at h
  · rename_i b hb
    split at h
    · simp at h
    · rename_i hjoi
      split at h
      · simp at h
      · rename_i c hc
        split at h
        · rename_i hauth
          split at h
          · simp at h
          · rename_i hval
            obtain ⟨hs, hok⟩ := Prod.mk.injEq .. ▸ h
            obtain rfl := Except.ok.inj hok
            exact ⟨b, c, hb, not_not.mp hjoi, hc, hauth, not_not.mp hval,
              rfl, hs.symm⟩
        · simp at h

/-- An event save with a failing validator reports the validation error
(and, per `saveEvent`, leaves the store untouched). -/
theorem saveEvent_invalid (now : Int) (st : Store) (e : EventDoc)
    (hv : eventValid now e = false) :
    saveEvent now st e = .error .badRequest := by
  unfold saveEvent
  rw [if_pos (by simp [hv])]

/-- Shape of a successful event save: the validators passed, the event
was appended, and cases changed at most in `nextHearingDate`. -/
theorem saveEvent_ok_shape (now : Int) (st : Store) (e : EventDoc)
    (s1 : Store) (h : saveEvent now st e = .ok s1) :
    eventValid now e = true ∧ e.start < e.stop ∧
      s1.events = st.events ++ [e] ∧ s1.documents = st.documents ∧
      ∀ x ∈ s1.cases, ∃ y ∈ st.cases,
        x = y ∨ x = { y with nextHearingDate := some e.start } := by
  unfold saveEvent at h
  split at h
  · simp at h
  · rename_i hv
    split at h
    · simp at h
    · rename_i hstop
      refine ?_
      split at h
      · split at h
        · rename_i cid hcr
          obtain rfl := Except.ok.inj h
          refine ⟨not_not.mp (by simpa using hv), by omega, rfl, rfl, ?_⟩
          intro x hx
          rcases List.mem_map.mp hx with ⟨y, hy, hfy⟩
          by_cases hid : y.id = cid
          · rw [if_pos hid] at hfy
            exact ⟨y, hy, Or.inr hfy.symm⟩
          · rw [if_neg hid] at hfy
            exact ⟨y, hy, Or.inl hfy.symm⟩
        · obtain rfl := Except.ok.inj h
          exact ⟨not_not.mp (by simpa using hv), by omega, rfl, rfl,
            fun x hx => ⟨x, hx, Or.inl rfl⟩⟩
      · obtain rfl := Except.ok.inj h
        exact ⟨not_not.mp (by simpa using hv), by omega, rfl, rfl,
          fun x hx => ⟨x, hx, Or.inl rfl⟩⟩

/-- The synchronizer hook never touches a case's identity, parties,
representation arrays or singular references — only `nextHearingDate`
and `events[]`. -/
theorem caseUpdateHook_cases_shape (now : Int) (nhd : Option Int)
    (doc : CaseDoc) (st : Store) :
    ∀ x ∈ (caseUpdateHook now nhd doc st).cases, ∃ y ∈ st.cases,
      x.id = y.id ∧ x.title = y.title ∧ x.caseNumber = y.caseNumber ∧
      x.petitioner = y.petitioner ∧ x.respondent = y.respondent ∧
      x.lawyers = y.lawyers ∧ x.clients = y.clients ∧
      x.lawyer = y.lawyer ∧ x.client = y.client := by
  intro x hx
  unfold caseUpdateHook at hx
  split at hx
  · exact ⟨x, hx, rfl, rfl, rfl, rfl, rfl, rfl, rfl, rfl, rfl⟩
  · rename_i d
    split at hx
    · exact ⟨x, hx, rfl, rfl, rfl, rfl, rfl, rfl, rfl, rfl, rfl⟩
    · split at hx
      · rename_i s1 hsave
        rcases List.mem_map.mp hx with ⟨y1, hy1, hfy⟩
        have base : ∃ y ∈ st.cases,
            y1.id = y.id ∧ y1.title = y.title ∧ y1.caseNumber = y.caseNumber ∧
            y1.petitioner = y.petitioner ∧ y1.respondent = y.respondent ∧
            y1.lawyers = y.lawyers ∧ y1.clients = y.clients ∧
            y1.lawyer = y.lawyer ∧ y1.client = y.client := by
          rcases (saveEvent_ok_shape _ _ _ _ hsave).2.2.2.2 y1 hy1 with ⟨y, hy, hc⟩
          rcases hc with h1 | h1 <;> subst h1 <;>
            exact ⟨_, hy, rfl, rfl, rfl, rfl, rfl, rfl, rfl, rfl, rfl⟩
        rcases base with ⟨y, hy, hfields⟩
        by_cases hid : y1.id = doc.id
        · rw [if_pos hid] at hfy
          subst hfy
          exact ⟨y, hy, hfields⟩
        · rw [if_neg hid] at hfy
          subst hfy
          exact ⟨y, hy, hfields⟩
      · exact ⟨x, hx, rfl, rfl, rfl, rfl, rfl, rfl, rfl, rfl, rfl⟩

/-! ## C4 — parties fields always persisted as arrays -/

/-- C4: whatever the shape of the incoming `parties` value (missing,
falsy, primitive, object with non-array sides), a successful create or
update persists array-valued `parties.petitioner` / `parties.respondent`,
both on the document handed back and on every stored copy of the case. -/
theorem parties_always_arrays (now : Int) (u : ReqUser) (s s' : Store)
    (bC : CreateBody) (cid : Nat) (bU : UpdateBody) (c' : CaseDoc) :
    (createCase now u bC s = (s', .ok c') →
      c'.petitioner.isArr ∧ c'.respondent.isArr) ∧
    (updateCase now u cid bU s = (s', .ok c') →
      c'.petitioner.isArr ∧ c'.respondent.isArr ∧
      ∀ x ∈ s'.cases, x.id = cid →
        x.petitioner.isArr ∧ x.respondent.isArr) := by
  constructor
  · intro h
    obtain ⟨-, -, -, -, hp, hr, -, -⟩ := createCase_ok_shape now u bC s s' c' h
    exact ⟨hp, hr⟩
  · intro h
    obtain ⟨b, c, -, -, -, -, -, hc', hs'⟩ :=
      updateCase_ok_shape now u cid bU s s' c' h
    have hcp : c'.petitioner.isArr := by rw [hc']; exact trivial
    have hcr : c'.respondent.isArr := by rw [hc']; exact trivial
    refine ⟨hcp, hcr, ?_⟩
    intro x hx hxid
    rw [hs'] at hx
    rcases caseUpdateHook_cases_shape _ _ _ _ x hx with
      ⟨y, hy, hid, -, -, hp, hr, -⟩
    rcases List.mem_map.mp hy with ⟨z, hz, hfz⟩
    by_cases hzid : z.id = cid
    · rw [if_pos hzid] at hfz
      subst hfz
      rw [hp, hr]
      exact ⟨hcp, hcr⟩
    · rw [if_neg hzid] at hfz
      subst hfz
      exact absurd (hid ▸ hxid) hzid

/-- C4, witness: a lawyer updates case 1 supplying `parties` as a truthy
non-object (the known corruption shape) is rejected; supplying an object
whose sides are non-arrays persists empty arrays.  Instantiated here with
non-array sides on update and a missing `parties` key on create. -/
theorem parties_always_arrays_witness :
    (let c : CaseDoc :=
       { mkCase 1 with
         lawyer := some 5
         petitioner := JsArr.notArray
         respondent := JsArr.notArray }
     let b : UpdateBody := { mkUpdateBody with parties := .obj .notArray .notArray }
     let r := updateCase 0 lawyerUser 1 b ⟨[c], [], []⟩
     r.2 = .ok { c with petitioner := .arr [], respondent := .arr [] } ∧
       ∀ x ∈ r.1.cases, x.id = 1 → x.petitioner.isArr ∧ x.respondent.isArr) := by
  dsimp only
  refine ⟨by decide, ?_⟩
  intro x hx hxid
  exact ((parties_always_arrays 0 lawyerUser
      ⟨[{ mkCase 1 with
          lawyer := some 5
          petitioner := JsArr.notArray
          respondent := JsArr.notArray }], [], []⟩
      (updateCase 0 lawyerUser 1
        { mkUpdateBody with parties := .obj .notArray .notArray }
        ⟨[{ mkCase 1 with
            lawyer := some 5
            petitioner := JsArr.notArray
            respondent := JsArr.notArray }], [], []⟩).1
      (mkCreateBody "CN-1") 1
      { mkUpdateBody with parties := .obj .notArray .notArray }
      { mkCase 1 with
        lawyer := some 5
        petitioner := JsArr.arr []
        respondent := JsArr.arr [] }).2
    (by decide)).2.2 x hx hxid

/-- C5, witness: a lawyer creates case `CN-1` into an empty store; the
identical second attempt against the resulting store gets `Conflict` and
leaves the store — holding exactly the first case — untouched. -/
theorem createCase_duplicate_conflict_witness :
    createCase 0 lawyerUser (mkCreateBody "CN-1") c5Store =
      (c5Store, .error .conflict) ∧ c5Doc ∈ c5Store.cases :=
  createCase_duplicate_conflict 0 0 lawyerUser lawyerUser
    (mkCreateBody "CN-1") (mkCreateBody "CN-1") emptyStore c5Store c5Doc
    (by decide) rfl (by decide)

/-! ## C8 — event-to-case mirroring -/

/-- C8: a successfully saved hearing event with a case reference writes
its `start` into that case's `nextHearingDate`
(`EventSchema.post('save')`). -/
theorem saveEvent_mirrors_case (now : Int) (s s' : Store) (e : EventDoc)
    (cid : Nat) (c : CaseDoc)
    (hty : e.etype = "hearing") (hc : e.caseRef = some cid)
    (h : saveEvent now s e = .ok s')
    (hmem : c ∈ s'.cases) (hid : c.id = cid) :
    c.nextHearingDate = some e.start := by
  unfold saveEvent at h
  split at h
  · simp at h
  · split at h
    · simp at h
    · rw [hc] at h
      obtain rfl := Except.ok.inj h
      rcases List.mem_map.mp hmem with ⟨x, hx, hfx⟩
      by_cases hxid : x.id = cid
      · rw [if_pos hxid] at hfx
        rw [← hfx]
      · rw [if_neg hxid] at hfx
        subst hfx
        exact absurd hid hxid

/-- C8, witness: saving a hearing event (start 500) for case 1 rewrites
that case's `nextHearingDate` to 500. -/
theorem saveEvent_mirrors_case_witness :
    saveEvent 0 ⟨[mkCase 1], [], []⟩
        { mkEvent 7 with caseRef := some 1, start := 500, stop := 500 + hourMs } =
      .ok ⟨[{ mkCase 1 with nextHearingDate := some 500 }],
           [{ mkEvent 7 with caseRef := some 1, start := 500, stop := 500 + hourMs }], []⟩ ∧
    ({ mkCase 1 with nextHearingDate := some 500 } : CaseDoc).nextHearingDate = some 500 :=
  ⟨by decide,
   saveEvent_mirrors_case 0 ⟨[mkCase 1], [], []⟩
     ⟨[{ mkCase 1 with nextHearingDate := some 500 }],
      [{ mkEvent 7 with caseRef := some 1, start := 500, stop := 500 + hourMs }], []⟩
     { mkEvent 7 with caseRef := some 1, start := 500, stop := 500 + hourMs }
     1 { mkCase 1 with nextHearingDate := some 500 }
     rfl rfl (by decide) (by decide) rfl⟩

/-! ## C1 — primary lawyer / client assignment -/

theorem setHeadPrimaryC_any (l : List ClientEntry) (h : l ≠ []) :
    (setHeadPrimaryC l).any (·.isPrimary) = true := by
  cases l with
  | nil => exact absurd rfl h
  | cons a t => simp [setHeadPrimaryC]

theorem ensurePrimaryC_any (l : List ClientEntry) (h : l ≠ []) :
    (ensurePrimaryC l).any (·.isPrimary) = true := by
  unfold ensurePrimaryC
  split
  · exact setHeadPrimaryC_any l h
  · rename_i hc
    by_contra hany
    exact hc (by simp [h, Bool.eq_false_iff.mpr hany])

theorem updClientsArr_any (v : JsArr ClientEntry) (h : v.coerce ≠ []) :
    (updClientsArr v).any (·.isPrimary) = true := by
  cases hl : v.coerce with
  | nil => exact absurd hl h
  | cons a t =>
    unfold updClientsArr
    rw [hl]
    simp only []
    split
    · rename_i hany; exact hany
    · simp

/-- The parties patch touches only the `parties` field of the body. -/
theorem patchBodyParties_fields (b0 b : UpdateBody)
    (h : patchBodyParties b0 = .ok b) :
    b.title = b0.title ∧ b.nextHearingDate = b0.nextHearingDate ∧
      b.lawyers = b0.lawyers ∧ b.clients = b0.clients := by
  unfold patchBodyParties at h
  split at h
  · simp at h
  · obtain rfl := Except.ok.inj h
    exact ⟨rfl, rfl, rfl, rfl⟩
  · obtain rfl := Except.ok.inj h
    exact ⟨rfl, rfl, rfl, rfl⟩

/-- C10: an update that sets `nextHearingDate` more than one hour into
the past, while no scheduled hearing event exists, succeeds and persists
the past date; the synthesized event fails the Event `start` validator
("Start date must be in the near future"), the hook catches the error
(only logging it), and the event store is untouched — the case is left
with a `nextHearingDate` that has no matching hearing event. -/
theorem pastHearingDate_no_event (now : Int) (u : ReqUser) (cid : Nat)
    (bU : UpdateBody) (s s' : Store) (c' : CaseDoc) (d : Int)
    (hd : bU.nextHearingDate = some (some d))
    (hpast : d ≤ now - hourMs)
    (hnone : s.events.find? (isScheduledHearing cid) = none)
    (h : updateCase now u cid bU s = (s', .ok c')) :
    c'.nextHearingDate = some d ∧ s'.events = s.events ∧
      ∀ x ∈ s'.cases, x.id = cid → x.nextHearingDate = some d := by
  obtain ⟨b, c, hpatch, -, hfind, -, -, hc', hs'⟩ :=
    updateCase_ok_shape now u cid bU s s' c' h
  have hbd : b.nextHearingDate = some (some d) :=
    (patchBodyParties_fields bU b hpatch).2.1.trans hd
  have hcid : c.id = cid := by
    have := List.find?_some hfind
    simpa using this
  have hc'id : c'.id = cid := by rw [hc']; exact hcid
  have hc'd : c'.nextHearingDate = some d := by
    rw [hc']
    show (match (buildUpdatePayload b c).nextHearingDate with
          | some v => v
          | none => c.nextHearingDate) = some d
    show (match b.nextHearingDate with
          | some v => v
          | none => c.nextHearingDate) = some d
    rw [hbd]
  have hhd : hookDate (buildUpdatePayload b c) = some d := by
    show (match (buildUpdatePayload b c).nextHearingDate with
          | some (some x) => some x
          | _ => none) = some d
    show (match b.nextHearingDate with
          | some (some x) => some x
          | _ => none) = some d
    rw [hbd]
  set s1 : Store :=
    { s with cases := s.cases.map fun x => if x.id = cid then c' else x } with hs1
  have hv : eventValid now (mkHearingEvent c' d (freshEventId s1)) = false := by
    unfold eventValid mkHearingEvent
    simp only []
    have hdec : decide (d > now - hourMs) = false := decide_eq_false (by omega)
    simp [hdec]
  have hs'1 : s' = s1 := by
    rw [hs', hhd]
    unfold caseUpdateHook
    have hev : s1.events.find? (isScheduledHearing c'.id) = none := by
      rw [hc'id]
      exact hnone
    rw [hev]
    simp only []
    rw [saveEvent_invalid now s1 _ hv]
  subst hs'1
  refine ⟨hc'd, rfl, ?_⟩
  intro x hx hxid
  rcases List.mem_map.mp hx with ⟨y, hy, hfy⟩
  by_cases hyid : y.id = cid
  · rw [if_pos hyid] at hfy
    rw [← hfy]
    exact hc'd
  · rw [if_neg hyid] at hfy
    subst hfy
    exact absurd hxid hyid

/-- C10, witness: at `now = 10h`, updating case 1 with
`nextHearingDate = 1h` (nine hours in the past) succeeds, persists the
date, and creates no event. -/
theorem pastHearingDate_no_event_witness :
    updateCase (10 * hourMs) lawyerUser 1
        { mkUpdateBody with nextHearingDate := some (some hourMs) }
        ⟨[{ mkCase 1 with lawyer := some 5 }], [], []⟩ =
      (⟨[{ mkCase 1 with lawyer := some 5, nextHearingDate := some hourMs }], [], []⟩,
       .ok { mkCase 1 with lawyer := some 5, nextHearingDate := some hourMs }) ∧
    (⟨[{ mkCase 1 with lawyer := some 5, nextHearingDate := some hourMs }], [], []⟩ :
        Store).events = ([] : List EventDoc) := by
  refine ⟨by decide, ?_⟩
  exact (pastHearingDate_no_event (10 * hourMs) lawyerUser 1
    { mkUpdateBody with nextHearingDate := some (some hourMs) }
    ⟨[{ mkCase 1 with lawyer := some 5 }], [], []⟩
    ⟨[{ mkCase 1 with lawyer := some 5, nextHearingDate := some hourMs }], [], []⟩
    { mkCase 1 with lawyer := some 5, nextHearingDate := some hourMs }
    hourMs rfl (by decide) (by decide) (by decide)).2.1

/-! ## C2 — hearing-event synchronization on update -/

/-- C2, counterexample: the claim says every update setting
`nextHearingDate` while no scheduled hearing event exists creates exactly
one hearing event.  Setting a `nextHearingDate` nine hours in the past
(no hearing event present) succeeds, yet zero hearing events exist
afterwards — the synthesized event fails the Event `start` validator and
the failure is only logged. -/
theorem nextHearing_update_creates_nothing :
    let s : Store := ⟨[{ mkCase 1 with lawyer := some 5 }], [], []⟩
    let r := updateCase (10 * hourMs) lawyerUser 1
        { mkUpdateBody with nextHearingDate := some (some hourMs) } s
    s.events.find? (isScheduledHearing 1) = none ∧
      r.2 = .ok { mkCase 1 with lawyer := some 5, nextHearingDate := some hourMs } ∧
      hearingEventsFor r.1 1 = [] := by
  dsimp only
  exact ⟨by decide, by decide, by decide⟩

theorem isScheduledHearing_eq (cid : Nat) (e : EventDoc)
    (h : isScheduledHearing cid e = true) :
    e.caseRef = some cid ∧ e.etype = "hearing" ∧ e.status = "scheduled" := by
  unfold isScheduledHearing at h
  simp only [Bool.and_eq_true, decide_eq_true_eq] at h
  exact ⟨h.1.1, h.1.2, h.2⟩

/-- With no hearing event at all for the case, the synchronizer's
scheduled-hearing lookup comes back empty. -/
theorem find?_sched_none (cid : Nat) (s : Store)
    (h : hearingEventsFor s cid = []) :
    s.events.find? (isScheduledHearing cid) = none := by
  rw [List.find?_eq_none]
  intro x hx hpx
  have hmem : x ∈ hearingEventsFor s cid := by
    unfold hearingEventsFor
    rw [List.mem_filter]
    obtain ⟨h1, h2, -⟩ := isScheduledHearing_eq cid x hpx
    exact ⟨hx, by simp [h1, h2]⟩
  rw [h] at hmem
  exact absurd hmem (List.not_mem_nil x)

/-- C2 (amended): when a case update sets `nextHearingDate` and no
hearing event exists for the case, exactly one hearing event is
created — with `start` = the new date, `end` = `start` + 1 hour,
status `scheduled`, its id appended to the case — PROVIDED the
synthesized event passes the Event validators (date within the
near-future window, a `createdBy` candidate present, title within
bounds, the synthesized description — 24 chars plus the case number —
within its 1000-char bound); and when a scheduled hearing event already
exists, that event is rewritten in place
(`start`/`end`/title/description) with no duplicate created, the
hearing-event count unchanged — regardless of the date, since
`Event.findByIdAndUpdate` runs no validators. -/
theorem hearing_sync_amended (now : Int) (u : ReqUser) (cid : Nat)
    (bU : UpdateBody) (s s' : Store) (c' : CaseDoc) (d : Int)
    (hd : bU.nextHearingDate = some (some d))
    (h : updateCase now u cid bU s = (s', .ok c')) :
    (hearingEventsFor s cid = [] →
      d > now - hourMs →
      ((c'.creator.or c'.lawyer).or c'.client).isSome = true →
      c'.title.length ≤ 190 →
      c'.caseNumber.length ≤ 976 →
      ∃ ev, hearingEventsFor s' cid = [ev] ∧
        ev.start = d ∧ ev.stop = d + hourMs ∧ ev.status = "scheduled" ∧
        ∃ x ∈ s'.cases, x.id = cid ∧ ev.id ∈ x.events) ∧
    (∀ ev0, s.events.find? (isScheduledHearing cid) = some ev0 →
      (hearingEventsFor s' cid).length = (hearingEventsFor s cid).length ∧
      hearingPatch c' d ev0 ∈ s'.events) := by
  obtain ⟨b, c, hpatch, -, hfind, -, -, hc', hs'⟩ :=
    updateCase_ok_shape now u cid bU s s' c' h
  have hbd : b.nextHearingDate = some (some d) :=
    (patchBodyParties_fields bU b hpatch).2.1.trans hd
  have hcid : c.id = cid := by simpa using List.find?_some hfind
  have hc'id : c'.id = cid := by rw [hc']; exact hcid
  have hhd : hookDate (buildUpdatePayload b c) = some d := by
    show (match (buildUpdatePayload b c).nextHearingDate with
          | some (some x) => some x
          | _ => none) = some d
    show (match b.nextHearingDate with
          | some (some x) => some x
          | _ => none) = some d
    rw [hbd]
  set s1 : Store :=
    { s with cases := s.cases.map fun x => if x.id = cid then c' else x } with hs1def
  rw [hhd] at hs'
  constructor
  · intro hno hfut hcreated htitle hnum
    have hfnone : s1.events.find? (isScheduledHearing c'.id) = none := by
      rw [hc'id]
      exact find?_sched_none cid s hno
    have hne : ("Hearing - " ++ c'.title) ≠ "" := by
      intro hEq
      have hlen := congrArg String.length hEq
      rw [String.length_append] at hlen
      have h10 : ("Hearing - ").length = 10 := rfl
      rw [h10] at hlen
      simp at hlen
    have hlen200 : ("Hearing - " ++ c'.title).length ≤ 200 := by
      rw [String.length_append]
      have h10 : ("Hearing - ").length = 10 := rfl
      rw [h10]
      omega
    have hloc : (if c'.court = "" then "Court" else c'.court) ≠ "" := by
      split
      · decide
      · assumption
    have hvalid : eventValid now (mkHearingEvent c' d (freshEventId s1)) = true := by
      unfold eventValid mkHearingEvent
      simp only []
      simp [hne, hfut, hcreated, hloc]
      rw [show ("Hearing - ").length = 10 from rfl,
        show ("Court hearing for case: ").length = 24 from rfl]
      omega
    have hstop : ¬ ((mkHearingEvent c' d (freshEventId s1)).stop ≤
        (mkHearingEvent c' d (freshEventId s1)).start) := by
      unfold mkHearingEvent
      simp only []
      unfold hourMs
      omega
    have hsave : saveEvent now s1 (mkHearingEvent c' d (freshEventId s1)) =
        .ok (setCaseNextHearing
          { s1 with events := s1.events ++ [mkHearingEvent c' d (freshEventId s1)] }
          c'.id d) := by
      unfold saveEvent
      rw [if_neg (by simp [hvalid]), if_neg hstop,
        if_pos (show (mkHearingEvent c' d (freshEventId s1)).etype = "hearing" from rfl)]
      rfl
    have hs'A : s' = { setCaseNextHearing
        { s1 with events := s1.events ++ [mkHearingEvent c' d (freshEventId s1)] }
        c'.id d with
      cases := (setCaseNextHearing
        { s1 with events := s1.events ++ [mkHearingEvent c' d (freshEventId s1)] }
        c'.id d).cases.map fun x =>
          if x.id = c'.id then
            { x with events := x.events ++ [(mkHearingEvent c' d (freshEventId s1)).id] }
          else x } := by
      rw [hs']
      unfold caseUpdateHook
      simp only []
      rw [hfnone]
      simp only []
      rw [hsave]
    refine ⟨mkHearingEvent c' d (freshEventId s1), ?_, rfl, rfl, rfl, ?_⟩
    · have hsev : s'.events = s.events ++ [mkHearingEvent c' d (freshEventId s1)] := by
        rw [hs'A]
        rfl
      unfold hearingEventsFor at hno ⊢
      rw [hsev, List.filter_append, hno, List.nil_append]
      have hp : ((mkHearingEvent c' d (freshEventId s1)).caseRef = some cid &&
          (mkHearingEvent c' d (freshEventId s1)).etype = "hearing") = true := by
        simp [mkHearingEvent, hc'id]
      simp [hp]
    · refine ⟨{ c' with
          nextHearingDate := some d
          events := c'.events ++ [(mkHearingEvent c' d (freshEventId s1)).id] },
        ?_, hc'id, by simp⟩
      rw [hs'A]
      show _ ∈ List.map _ (List.map _ (List.map _ s.cases))
      have hmem := List.mem_of_find?_eq_some hfind
      refine List.mem_map.mpr ⟨{ c' with nextHearingDate := some d },
        List.mem_map.mpr ⟨c', List.mem_map.mpr ⟨c, hmem, by simp [hcid]⟩, by simp⟩,
        by simp⟩
  · intro ev0 hfound
    have hfound1 : s1.events.find? (isScheduledHearing c'.id) = some ev0 := by
      rw [hc'id]
      exact hfound
    have hs'B : s' = { s1 with events := s1.events.map fun e =>
        if e.id = ev0.id then hearingPatch c' d e else e } := by
      rw [hs']
      unfold caseUpdateHook
      simp only []
      rw [hfound1]
    constructor
    · rw [hs'B]
      unfold hearingEventsFor
      show (List.filter _ (List.map _ s.events)).length = _
      rw [← List.countP_eq_length_filter, ← List.countP_eq_length_filter,
        List.countP_map]
      apply List.countP_congr
      intro e _
      by_cases hid : e.id = ev0.id
      · simp [Function.comp, hid, hearingPatch]
      · simp [Function.comp, hid]
    · rw [hs'B]
      show _ ∈ List.map _ s.events
      have hmem := List.mem_of_find?_eq_some hfound
      exact List.mem_map.mpr ⟨ev0, hmem, by simp⟩

/-- C2, witness: (a) updating case 1 (no events) with
`nextHearingDate = 500` at `now = 0` creates exactly one scheduled
hearing event spanning `[500, 500 + 1h]`, linked from the case;
(b) with a scheduled hearing event already present, updating to `700`
rewrites it in place and the hearing-event count stays the same. -/
theorem hearing_sync_amended_witness :
    (∃ ev, hearingEventsFor
        (updateCase 0 lawyerUser 1
          { mkUpdateBody with nextHearingDate := some (some 500) }
          ⟨[{ mkCase 1 with lawyer := some 5 }], [], []⟩).1 1 = [ev] ∧
      ev.start = 500 ∧ ev.stop = 500 + hourMs ∧ ev.status = "scheduled" ∧
      ∃ x ∈ (updateCase 0 lawyerUser 1
          { mkUpdateBody with nextHearingDate := some (some 500) }
          ⟨[{ mkCase 1 with lawyer := some 5 }], [], []⟩).1.cases,
        x.id = 1 ∧ ev.id ∈ x.events) ∧
    ((hearingEventsFor
        (updateCase 0 lawyerUser 1
          { mkUpdateBody with nextHearingDate := some (some 700) }
          ⟨[{ mkCase 1 with lawyer := some 5 }],
           [{ mkEvent 2 with caseRef := some 1, start := 100, stop := 100 + hourMs }],
           []⟩).1 1).length =
      (hearingEventsFor
        (⟨[{ mkCase 1 with lawyer := some 5 }],
          [{ mkEvent 2 with caseRef := some 1, start := 100, stop := 100 + hourMs }],
          []⟩ : Store) 1).length ∧
      hearingPatch { mkCase 1 with lawyer := some 5, nextHearingDate := some 700 } 700
          { mkEvent 2 with caseRef := some 1, start := 100, stop := 100 + hourMs } ∈
        (updateCase 0 lawyerUser 1
          { mkUpdateBody with nextHearingDate := some (some 700) }
          ⟨[{ mkCase 1 with lawyer := some 5 }],
           [{ mkEvent 2 with caseRef := some 1, start := 100, stop := 100 + hourMs }],
           []⟩).1.events) := by
  constructor
  · exact (hearing_sync_amended 0 lawyerUser 1
      { mkUpdateBody with nextHearingDate := some (some 500) }
      ⟨[{ mkCase 1 with lawyer := some 5 }], [], []⟩
      (updateCase 0 lawyerUser 1
        { mkUpdateBody with nextHearingDate := some (some 500) }
        ⟨[{ mkCase 1 with lawyer := some 5 }], [], []⟩).1
      { mkCase 1 with lawyer := some 5, nextHearingDate := some 500 }
      500 rfl (by decide)).1 (by decide) (by decide) (by decide) (by decide)
      (by decide)
  · exact (hearing_sync_amended 0 lawyerUser 1
      { mkUpdateBody with nextHearingDate := some (some 700) }
      ⟨[{ mkCase 1 with lawyer := some 5 }],
       [{ mkEvent 2 with caseRef := some 1, start := 100, stop := 100 + hourMs }],
       []⟩
      (updateCase 0 lawyerUser 1
        { mkUpdateBody with nextHearingDate := some (some 700) }
        ⟨[{ mkCase 1 with lawyer := some 5 }],
         [{ mkEvent 2 with caseRef := some 1, start := 100, stop := 100 + hourMs }],
         []⟩).1
      { mkCase 1 with lawyer := some 5, nextHearingDate := some 700 }
      700 rfl (by decide)).2
      { mkEvent 2 with caseRef := some 1, start := 100, stop := 100 + hourMs }
      (by decide)

/-! ## C9 — idempotence of updateCase -/

/-- Every failing `updateCase` leaves the store untouched. -/
theorem updateCase_error_store (now : Int) (u : ReqUser) (cid : Nat)
    (b0 : UpdateBody) (s s' : Store) (err : AppErr)
    (h : updateCase now u cid b0 s = (s', .error err)) : s' = s := by
  unfold updateCase at h
  split at h
  · exact (Prod.mk.injEq .. ▸ h).1.symm
  · split at h
    · exact (Prod.mk.injEq .. ▸ h).1.symm
    · split at h
      · exact (Prod.mk.injEq .. ▸ h).1.symm
      · split at h
        · split at h
          · exact (Prod.mk.injEq .. ▸ h).1.symm
          · simp at h
        · exact (Prod.mk.injEq .. ▸ h).1.symm

/-- A list mapped by a pointwise-identity function is unchanged. -/
theorem map_eq_self_of_id {α : Type} (l : List α) (f : α → α)
    (h : ∀ x ∈ l, f x = x) : l.map f = l := by
  induction l with
  | nil => rfl
  | cons a t ih =>
    rw [List.map_cons, h a (by simp), ih fun x hx => f x |> fun _ => h x (by simp [hx])]

/-- `find?` commutes with a map that does not disturb the predicate. -/
theorem find?_map_stable {α : Type} (l : List α) (f : α → α) (p : α → Bool)
    (hp : ∀ x, p (f x) = p x) :
    (l.map f).find? p = (l.find? p).map f := by
  induction l with
  | nil => rfl
  | cons a t ih =>
    rw [List.map_cons, List.find?_cons, List.find?_cons]
    cases hpa : p a with
    | true => rw [hp a, hpa]; rfl
    | false => rw [hp a, hpa]; exact ih

/-- After replacing every id-matching case, `find?` returns the
replacement (provided some case matched before). -/
theorem find?_replaceCase (l : List CaseDoc) (cid : Nat) (c c' : CaseDoc)
    (hfind : l.find? (fun x => x.id = cid) = some c) (hid : c'.id = cid) :
    (l.map fun x => if x.id = cid then c' else x).find?
      (fun x => x.id = cid) = some c' := by
  induction l with
  | nil => simp at hfind
  | cons a t ih =>
    rw [List.map_cons, List.find?_cons]
    by_cases ha : a.id = cid
    · rw [if_pos ha]
      rw [show decide (c'.id = cid) = true from by simp [hid]]
    · rw [if_neg ha]
      rw [show decide (a.id = cid) = false from by simp [ha]]
      rw [List.find?_cons, show decide (a.id = cid) = false from by simp [ha]]
        at hfind
      exact ih hfind

/-- Replacing id-matching cases twice is the same as once. -/
theorem replaceCase_map_self (l : List CaseDoc) (cid : Nat) (c' : CaseDoc) :
    ((l.map fun x => if x.id = cid then c' else x).map
      fun x => if x.id = cid then c' else x) =
    l.map fun x => if x.id = cid then c' else x := by
  rw [List.map_map]
  apply List.map_congr_left
  intro a _
  by_cases ha : a.id = cid
  · simp [Function.comp, ha]
  · simp [Function.comp, ha]

/-- Every event id in the store is below the fresh id. -/
theorem mem_events_id_ne_fresh (s : Store) (e : EventDoc)
    (he : e ∈ s.events) : e.id ≠ freshEventId s := by
  have hle : e.id ≤ maxEventId s := by
    unfold maxEventId
    generalize s.events = l at he
    induction l with
    | nil => simp at he
    | cons a t ih =>
      rcases List.mem_cons.mp he with rfl | hmem
      · simp [List.foldr_cons, le_max_iff]
      · simp only [List.foldr_cons, le_max_iff]
        exact Or.inr (ih hmem)
  unfold freshEventId
  omega

/-- Applying the same `$set` payload twice produces the same document. -/
theorem applyUpdate_applyUpdate (c : CaseDoc) (p : UpdatePayload) :
    applyUpdate (applyUpdate c p) p = applyUpdate c p := by
  rcases p with ⟨ti, nhd, pet, resp, lws, lw, cls, cl⟩
  unfold applyUpdate
  cases ti <;> cases nhd <;> cases lws <;> cases lw <;> cases cls <;>
    cases cl <;> rfl

/-- `applyUpdate` never touches `events[]`. -/
theorem applyUpdate_events (c : CaseDoc) (p : UpdatePayload) (E : List Nat) :
    applyUpdate { c with events := E } p = { applyUpdate c p with events := E } :=
  rfl

/-- The update payload depends on the loaded case only through the
parties fallback, so a case already carrying the payload's parties
yields the same payload again. -/
theorem buildUpdatePayload_stable (b : UpdateBody) (c c₂ : CaseDoc)
    (hp : c₂.petitioner = JsArr.arr (updPetitioner b c))
    (hr : c₂.respondent = JsArr.arr (updRespondent b c)) :
    buildUpdatePayload b c₂ = buildUpdatePayload b c := by
  unfold buildUpdatePayload
  simp only [UpdatePayload.mk.injEq, and_true, true_and]
  refine ⟨?_, ?_⟩
  · show updPetitioner b c₂ = updPetitioner b c
    cases hb : b.parties
    · rw [show updPetitioner b c₂ = c₂.petitioner.coerce from by
        unfold updPetitioner; rw [hb], hp]
      show updPetitioner b c = updPetitioner b c
      rfl
    · rw [show updPetitioner b c₂ = c₂.petitioner.coerce from by
        unfold updPetitioner; rw [hb], hp]
      rfl
    · rw [show updPetitioner b c₂ = c₂.petitioner.coerce from by
        unfold updPetitioner; rw [hb], hp]
      rfl
    · unfold updPetitioner
      rw [hb]
  · show updRespondent b c₂ = updRespondent b c
    cases hb : b.parties
    · rw [show updRespondent b c₂ = c₂.respondent.coerce from by
        unfold updRespondent; rw [hb], hr]
      rfl
    · rw [show updRespondent b c₂ = c₂.respondent.coerce from by
        unfold updRespondent; rw [hb], hr]
      rfl
    · rw [show updRespondent b c₂ = c₂.respondent.coerce from by
        unfold updRespondent; rw [hb], hr]
      rfl
    · unfold updRespondent
      rw [hb]

/-- The in-place patch does not disturb the scheduled-hearing query. -/
theorem hearingPatch_sched (doc : CaseDoc) (d : Int) (cid : Nat)
    (e : EventDoc) :
    isScheduledHearing cid (hearingPatch doc d e) = isScheduledHearing cid e :=
  rfl

theorem hearingPatch_hearingPatch (doc : CaseDoc) (d : Int) (e : EventDoc) :
    hearingPatch doc d (hearingPatch doc d e) = hearingPatch doc d e := rfl

/-- The exact store a successful hearing-event save produces. -/
theorem saveEvent_ok_eq (now : Int) (st : Store) (e : EventDoc) (s2 : Store)
    (cid : Nat) (hty : e.etype = "hearing") (hcr : e.caseRef = some cid)
    (h : saveEvent now st e = .ok s2) :
    s2 = setCaseNextHearing { st with events := st.events ++ [e] } cid e.start := by
  unfold saveEvent at h
  split at h
  · simp at h
  · split at h
    · simp at h
    · split at h
      · rename_i cid2 heq
        rw [heq] at hcr
        obtain rfl := Option.some.inj hcr
        exact (Except.ok.inj h).symm
      · rename_i heq
        rw [heq] at hcr
        simp at hcr

theorem find?_append_none {α : Type} (l₁ l₂ : List α) (p : α → Bool)
    (h : l₁.find? p = none) : (l₁ ++ l₂).find? p = l₂.find? p := by
  induction l₁ with
  | nil => rfl
  | cons a t ih =>
    rw [List.cons_append, List.find?_cons]
    rw [List.find?_cons] at h
    cases hpa : p a with
    | true => rw [hpa] at h; simp at h
    | false =>
      rw [hpa] at h
      simp only [] at h
      simp only []
      exact ih h

theorem hookDate_some (p : UpdatePayload) (d : Int)
    (h : hookDate p = some d) : p.nextHearingDate = some (some d) := by
  unfold hookDate at h
  split at h
  · rename_i x heq
    rw [heq]
    obtain rfl := Option.some.inj h
    rfl
  · simp at h

/-- The second run of an identical update is a no-op, provided the store
already carries the first run's outcome: the found case is the written
document, the payload reapplies to it unchanged, the replacement map is
saturated, and the synchronizer hook fixes the store. -/
theorem updateCase_second_run (now : Int) (u : ReqUser) (cid : Nat)
    (b0 b : UpdateBody) (s' : Store) (c₂ : CaseDoc)
    (hpatch : patchBodyParties b0 = .ok b)
    (hjoi : joiUpdateValid b = true)
    (hfind2 : s'.cases.find? (fun x => x.id = cid) = some c₂)
    (hval2 : updatePayloadValid (buildUpdatePayload b c₂) = true)
    (happ : applyUpdate c₂ (buildUpdatePayload b c₂) = c₂)
    (hrepl : (s'.cases.map fun x => if x.id = cid then c₂ else x) = s'.cases)
    (hhook : caseUpdateHook now (hookDate (buildUpdatePayload b c₂)) c₂ s' = s') :
    (updateCase now u cid b0 s').1 = s' := by
  unfold updateCase
  rw [hpatch]
  simp only []
  rw [if_neg (by simp [hjoi]), hfind2]
  simp only []
  by_cases hauth2 : authorizedUpdate u c₂ = true
  · rw [if_pos hauth2, if_neg (by simp [hval2]), happ]
    simp only []
    rw [hrepl]
    exact hhook
  · rw [if_neg hauth2]

/-- C9: submitting the identical update payload twice in succession
leaves the persisted state exactly as after the first submission — no
array entries are duplicated and no duplicate hearing event is created,
in every branch of the synchronizer (no-op, in-place rewrite, fresh
creation, failed creation), and even when the first update revoked the
submitter's own access (the second run is then a rejected no-op). -/
theorem updateCase_idempotent (now : Int) (u : ReqUser) (cid : Nat)
    (b0 : UpdateBody) (s : Store) :
    (updateCase now u cid b0 (updateCase now u cid b0 s).1).1 =
      (updateCase now u cid b0 s).1 := by
  rcases hr : updateCase now u cid b0 s with ⟨s', res⟩
  simp only []
  cases res with
  | error err =>
    obtain rfl := updateCase_error_store now u cid b0 s s' err hr
    rw [hr]
  | ok c' =>
    obtain ⟨b, c, hpatch, hjoi, hfind, hauth, hval, hc', hs'⟩ :=
      updateCase_ok_shape now u cid b0 s s' c' hr
    have hcid : c.id = cid := by simpa using List.find?_some hfind
    have hc'id : c'.id = cid := by rw [hc']; exact hcid
    have hpet : c'.petitioner = JsArr.arr (updPetitioner b c) := by
      rw [hc']; rfl
    have hresp : c'.respondent = JsArr.arr (updRespondent b c) := by
      rw [hc']; rfl
    have hpayc' : buildUpdatePayload b c' = buildUpdatePayload b c :=
      buildUpdatePayload_stable b c c' hpet hresp
    have happc : applyUpdate c' (buildUpdatePayload b c) = c' := by
      rw [hc']
      exact applyUpdate_applyUpdate c (buildUpdatePayload b c)
    set s1 : Store :=
      { s with cases := s.cases.map fun x => if x.id = cid then c' else x }
      with hs1
    cases hhd : hookDate (buildUpdatePayload b c) with
    | none =>
      rw [hhd] at hs'
      have hs'n : s' = s1 := by rw [hs']; rfl
      subst hs'n
      apply updateCase_second_run now u cid b0 b s1 c' hpatch hjoi
      · exact find?_replaceCase s.cases cid c c' hfind hc'id
      · rw [hpayc']; exact hval
      · rw [hpayc']; exact happc
      · exact replaceCase_map_self s.cases cid c'
      · rw [hpayc', hhd]; rfl
    | some d =>
      have hpnd : (buildUpdatePayload b c).nextHearingDate = some (some d) :=
        hookDate_some _ d hhd
      have hnhd : c'.nextHearingDate = some d := by
        rw [hc']
        show (match (buildUpdatePayload b c).nextHearingDate with
              | some v => v
              | none => c.nextHearingDate) = some d
        rw [hpnd]
      rw [hhd] at hs'
      cases hfe : s1.events.find? (isScheduledHearing c'.id) with
      | some ev =>
        have hs'r : s' = { s1 with events := s1.events.map fun e =>
            if e.id = ev.id then hearingPatch c' d e else e } := by
          rw [hs']
          unfold caseUpdateHook
          simp only []
          rw [hfe]
        subst hs'r
        apply updateCase_second_run now u cid b0 b _ c' hpatch hjoi
        · exact find?_replaceCase s.cases cid c c' hfind hc'id
        · rw [hpayc']; exact hval
        · rw [hpayc']; exact happc
        · exact replaceCase_map_self s.cases cid c'
        · rw [hpayc', hhd]
          unfold caseUpdateHook
          simp only []
          have hfe2 : (s1.events.map fun e =>
              if e.id = ev.id then hearingPatch c' d e else e).find?
                (isScheduledHearing c'.id) = some (hearingPatch c' d ev) := by
            rw [find?_map_stable s1.events _ (isScheduledHearing c'.id)
              (fun x => by
                by_cases hx : x.id = ev.id
                · rw [if_pos hx, hearingPatch_sched]
                · rw [if_neg hx]), hfe]
            simp
          rw [hfe2]
          simp only []
          have hmapmap : ((s1.events.map fun e =>
              if e.id = ev.id then hearingPatch c' d e else e).map fun e =>
              if e.id = (hearingPatch c' d ev).id then hearingPatch c' d e
              else e) =
              s1.events.map fun e =>
                if e.id = ev.id then hearingPatch c' d e else e := by
            rw [List.map_map]
            apply List.map_congr_left
            intro a _
            by_cases ha : a.id = ev.id
            · simp only [Function.comp]
              rw [if_pos ha,
                if_pos (show (hearingPatch c' d a).id = (hearingPatch c' d ev).id
                  from ha),
                hearingPatch_hearingPatch]
            · simp only [Function.comp]
              rw [if_neg ha,
                if_neg (show ¬ a.id = (hearingPatch c' d ev).id from ha)]
          rw [hmapmap]
      | none =>
        cases hsv : saveEvent now s1 (mkHearingEvent c' d (freshEventId s1)) with
        | error err =>
          have hs'e : s' = s1 := by
            rw [hs']
            unfold caseUpdateHook
            simp only []
            rw [hfe]
            simp only []
            rw [hsv]
          subst hs'e
          apply updateCase_second_run now u cid b0 b s1 c' hpatch hjoi
          · exact find?_replaceCase s.cases cid c c' hfind hc'id
          · rw [hpayc']; exact hval
          · rw [hpayc']; exact happc
          · exact replaceCase_map_self s.cases cid c'
          · rw [hpayc', hhd]
            unfold caseUpdateHook
            simp only []
            rw [hfe]
            simp only []
            rw [hsv]
        | ok s2 =>
          have hs2 : s2 = setCaseNextHearing
              { s1 with events := s1.events ++ [mkHearingEvent c' d (freshEventId s1)] }
              c'.id d :=
            saveEvent_ok_eq now s1 _ s2 c'.id rfl rfl hsv
          have hs'c : s' = { s2 with cases := s2.cases.map fun x =>
              if x.id = c'.id then
                { x with events :=
                    x.events ++ [(mkHearingEvent c' d (freshEventId s1)).id] }
              else x } := by
            rw [hs']
            unfold caseUpdateHook
            simp only []
            rw [hfe]
            simp only []
            rw [hsv]
          have hNH : ({ c' with nextHearingDate := some d } : CaseDoc) = c' := by
            rw [← hnhd]
          have hcases : s'.cases = s.cases.map fun x =>
              if x.id = cid then
                ({ c' with events :=
                    c'.events ++ [(mkHearingEvent c' d (freshEventId s1)).id] } :
                  CaseDoc)
              else x := by
            rw [hs'c, hs2]
            show ((s.cases.map _).map _).map _ = _
            rw [List.map_map, List.map_map]
            apply List.map_congr_left
            intro a _
            by_cases ha : a.id = cid
            · simp only [Function.comp]
              rw [if_pos ha, if_pos (show c'.id = c'.id from rfl), hNH,
                if_pos (show c'.id = c'.id from rfl), if_pos ha]
            · simp only [Function.comp]
              have ha2 : ¬ a.id = c'.id := by rw [hc'id]; exact ha
              rw [if_neg ha, if_neg ha2, if_neg ha2, if_neg ha]
          have hpetc2 : ({ c' with events :=
              c'.events ++ [(mkHearingEvent c' d (freshEventId s1)).id] } :
                CaseDoc).petitioner = JsArr.arr (updPetitioner b c) := hpet
          have hrespc2 : ({ c' with events :=
              c'.events ++ [(mkHearingEvent c' d (freshEventId s1)).id] } :
                CaseDoc).respondent = JsArr.arr (updRespondent b c) := hresp
          have hpayc2 : buildUpdatePayload b
              { c' with events :=
                  c'.events ++ [(mkHearingEvent c' d (freshEventId s1)).id] } =
              buildUpdatePayload b c :=
            buildUpdatePayload_stable b c _ hpetc2 hrespc2
          have hev : s'.events =
              s.events ++ [mkHearingEvent c' d (freshEventId s1)] := by
            rw [hs'c, hs2]
            rfl
          apply updateCase_second_run now u cid b0 b s'
            { c' with events :=
                c'.events ++ [(mkHearingEvent c' d (freshEventId s1)).id] }
            hpatch hjoi
          · rw [hcases]
            exact find?_replaceCase s.cases cid c _ hfind hc'id
          · rw [hpayc2]; exact hval
          · rw [hpayc2]
            rw [show (applyUpdate
                { c' with events :=
                    c'.events ++ [(mkHearingEvent c' d (freshEventId s1)).id] }
                (buildUpdatePayload b c)) =
                { applyUpdate c' (buildUpdatePayload b c) with events :=
                    c'.events ++ [(mkHearingEvent c' d (freshEventId s1)).id] }
              from applyUpdate_events c' (buildUpdatePayload b c) _]
            rw [happc]
          · rw [hcases]
            exact replaceCase_map_self s.cases cid _
          · rw [hpayc2, hhd]
            unfold caseUpdateHook
            simp only []
            have hfind3 : s'.events.find? (isScheduledHearing
                ({ c' with events :=
                    c'.events ++ [(mkHearingEvent c' d (freshEventId s1)).id] } :
                  CaseDoc).id) =
                some (mkHearingEvent c' d (freshEventId s1)) := by
              rw [hev]
              rw [find?_append_none _ _ _ hfe]
              rw [List.find?_cons]
              rw [show isScheduledHearing c'.id (mkHearingEvent c' d (freshEventId s1)) =
                  true from by simp [isScheduledHearing, mkHearingEvent]]
            rw [hfind3]
            simp only []
            have hstable : s'.events.map (fun x =>
                if x.id = (mkHearingEvent c' d (freshEventId s1)).id then
                  hearingPatch
                    { c' with events :=
                        c'.events ++ [(mkHearingEvent c' d (freshEventId s1)).id] }
                    d x
                else x) = s'.events := by
              rw [hev]
              apply map_eq_self_of_id
              intro x hx
              rcases List.mem_append.mp hx with hm | hm
              · have hne : ¬ x.id = (mkHearingEvent c' d (freshEventId s1)).id :=
                  mem_events_id_ne_fresh s1 x hm
                rw [if_neg hne]
              · rw [List.mem_singleton.mp hm]
                simp only [if_true]
                rfl
            rw [hstable]

end Adhi
